import Mathlib

/-
  Shallow embedding of the core of the prr review engine:
  - src/parser.rs : the review-file state machine (ReviewParser)
  - src/review.rs : snip resolution, review-file validation, file creation

  Lines are modelled as lists of characters; whole file contents as a single
  list of characters containing newline characters.  Machine integers (u64
  line counters) are modelled as Nat; the source only ever adds 1 to them or
  performs `saturating_sub`, which coincides with Nat subtraction.
-/

namespace Prr

abbrev Line := List Char

/-- Whitespace test mirroring Rust char::is_whitespace on the ASCII range. -/
def isWs (c : Char) : Bool :=
  c = ' ' || c = '\t' || c = '\n' || c = '\r' || c = '\x0b' || c = '\x0c'

/-- Rust str::trim_start on a line. -/
def trimStartL (l : Line) : Line := l.dropWhile isWs

/-- Rust str::trim_end on a line. -/
def trimEndL (l : Line) : Line := (l.reverse.dropWhile isWs).reverse

/-- Rust str::trim on a line. -/
def rustTrim (l : Line) : Line := trimEndL (trimStartL l)

/-- Remove one trailing carriage return, as Rust str::lines does on each
line terminated by a newline. -/
def rstripCr (l : Line) : Line :=
  match l.reverse with
  | '\r' :: r => r.reverse
  | _ => l

/-- Worker for rust_lines: accumulates the current line (reversed) while
scanning the remaining characters. -/
def lines_go (acc : Line) : List Char → List Line
  | [] => [acc.reverse]
  | c :: rest =>
    if c = '\n' then
      rstripCr acc.reverse :: (match rest with | [] => [] | _ :: _ => lines_go [] rest)
    else lines_go (c :: acc) rest

/-- Rust str::lines: split on newline characters, no empty trailing line for a
trailing newline, and a carriage return before a newline is stripped. -/
def rust_lines (s : List Char) : List Line :=
  match s with
  | [] => []
  | _ :: _ => lines_go [] s

/-- Drop a literal p off the front of l, if it is there. -/
def dropAfter (p l : Line) : Option Line :=
  if p.isPrefixOf l then some (l.drop p.length) else none

/-- Value of a list of decimal digit characters. -/
def digitsToNat (ds : Line) : Nat :=
  ds.foldl (fun acc c => acc * 10 + (c.toNat - 48)) 0

/-- Read a maximal nonempty run of decimal digits at the front of a line
(the backtracking-free reading of a greedy regex d-plus group). -/
def readDigits (l : Line) : Option (Nat × Line) :=
  let ds := l.takeWhile Char.isDigit
  if ds.isEmpty then none else some (digitsToNat ds, l.dropWhile Char.isDigit)

-- ---------------------------------------------------------------------------
-- parser.rs : data model
-- ---------------------------------------------------------------------------

/-- LineLocation from parser.rs: a pre-change (Left) or post-change (Right)
line number. -/
inductive LineLocation
  | Left (n : Nat)
  | Right (n : Nat)
deriving DecidableEq, Repr

/-- InlineComment from parser.rs. -/
structure InlineComment where
  file : Line
  line : LineLocation
  start_line : Option LineLocation
  comment : Line
deriving DecidableEq, Repr

/-- ReviewAction from parser.rs. -/
inductive ReviewAction
  | Approve
  | RequestChanges
  | Comment
deriving DecidableEq, Repr

/-- Comment from parser.rs: every unit the parser can emit. -/
inductive Comment
  | Review (t : Line)
  | Inline (c : InlineComment)
  | ReviewAction (a : ReviewAction)
deriving DecidableEq, Repr

/-- FileDiffState from parser.rs. -/
structure FileDiffState where
  file : Line
  left_line : Nat
  right_line : Nat
  line : LineLocation
  span_start_line : Option LineLocation
deriving DecidableEq, Repr

/-- State from parser.rs: the state machine states, each owning its payload. -/
inductive State
  | Start (comment : List Line)
  | FilePreamble (file : Line)
  | FileDiff (fds : FileDiffState)
  | SpanStartOrComment (fds : FileDiffState)
  | Comment (fds : FileDiffState) (comment : List Line)
deriving DecidableEq, Repr

/-- The sites at which parse_line bails with a fatal parse error. -/
inductive ParseErr
  | expectedDiffHeader
  | unknownDirective
  | invalidDiffHeader
  | commentInPreamble
  | unterminatedSpan
  | crossChunkSpan
deriving DecidableEq, Repr

/-- Outcome of one parse_line call: a new state plus an optionally emitted
comment, a fatal parse error, or a process panic (the unreachable macro in
parse_hunk_start). -/
inductive StepResult
  | ok (st : State) (c : Option Comment)
  | error (e : ParseErr)
  | panicked
deriving DecidableEq, Repr

/-- Outcome of parse_hunk_start. -/
inductive HunkParse
  | nomatch
  | found (left right : Nat)
  | panicked
deriving DecidableEq, Repr

-- ---------------------------------------------------------------------------
-- parser.rs : helper functions
-- ---------------------------------------------------------------------------

/-- is_diff_header from parser.rs. -/
def is_diff_header (l : Line) : Bool :=
  "diff --git ".toList.isPrefixOf l

/-- is_prr_directive from parser.rs: trim, then strip a literal at-prr marker. -/
def is_prr_directive (l : Line) : Option Line :=
  let t := rustTrim l
  if "@prr ".toList.isPrefixOf t then some (t.drop 5) else none

/-- Search (after the a-slash part) for the last occurrence of a space-b-slash
separator that leaves a nonempty tail; returns that tail.  This is the
leftmost-greedy behaviour of the DIFF_START regex capture. -/
def lastBSep : List Char → Option Line
  | [] => none
  | c :: cs =>
    match lastBSep cs with
    | some r => some r
    | none =>
      match c, cs with
      | ' ', 'b' :: '/' :: t => if t = [] then none else some t
      | _, _ => none

/-- parse_diff_header from parser.rs: the new filename captured by the
DIFF_START regex, trimmed. -/
def parse_diff_header (line : Line) : Option Line :=
  match dropAfter "diff --git a/".toList line with
  | none => none
  | some rest =>
    match rest with
    | [] => none
    | _ :: cs => (lastBSep cs).map rustTrim

/-- parse_hunk_start from parser.rs: match the HUNK_START regex and return the
declared left and right start lines.  When the right start group is absent it
defaults to 0 if the left start is 0; otherwise the source executes the
unreachable macro, i.e. panics. -/
def parse_hunk_start (line : Line) : HunkParse :=
  match dropAfter "@@ -".toList line with
  | none => .nomatch
  | some r1 =>
    match readDigits r1 with
    | none => .nomatch
    | some (lstart, r2) =>
      match r2 with
      | ',' :: r3 =>
        match readDigits r3 with
        | none => .nomatch
        | some (_, r4) =>
          match r4 with
          | ' ' :: '+' :: r5 =>
            match readDigits r5 with
            | none => .nomatch
            | some (d1, r6) =>
              match r6 with
              | ',' :: r7 =>
                match readDigits r7 with
                | none => .nomatch
                | some (_, r8) =>
                  if " @@".toList.isPrefixOf r8 then .found lstart d1 else .nomatch
              | _ =>
                if " @@".toList.isPrefixOf r6 then
                  if lstart = 0 then .found lstart 0 else .panicked
                else .nomatch
          | _ => .nomatch
      | _ => .nomatch

/-- is_left_line from parser.rs. -/
def is_left_line (line : Line) : Bool :=
  match line with
  | '-' :: _ => true
  | _ => false

/-- Leading addition marker test (line.starts_with of a plus). -/
def is_plus_line (line : Line) : Bool :=
  match line with
  | '+' :: _ => true
  | _ => false

/-- get_next_lines from parser.rs. -/
def get_next_lines (line : Line) (left right : Nat) : Nat × Nat :=
  if is_left_line line then (left + 1, right)
  else if is_plus_line line then (left, right + 1)
  else (left + 1, right + 1)

/-- The quoted test in parse_line (line starts with the quote marker). -/
def line_is_quoted (raw : Line) : Bool :=
  match raw with
  | '>' :: _ => true
  | _ => false

/-- The stripping in parse_line: strip a quote marker plus space, else a bare
quote marker; unquoted lines pass through. -/
def stripQuote : Line → Line
  | '>' :: ' ' :: rest => rest
  | '>' :: rest => rest
  | l => l

/-- Join buffered comment lines with newlines (the join in parse_line). -/
def joinNl (cs : List Line) : Line := List.intercalate ['\n'] cs

-- ---------------------------------------------------------------------------
-- parser.rs : ReviewParser::parse_line and ReviewParser::finish
-- ---------------------------------------------------------------------------

/-- parse_line from parser.rs, as a function from state and raw input line to
a step outcome. -/
def parse_line (st : State) (raw : Line) : StepResult :=
  let is_quoted := line_is_quoted raw
  let line := stripQuote raw
  match st with
  | .Start comment =>
    if is_quoted then
      if is_diff_header line then
        let rc : Option Comment :=
          if comment ≠ [] then some (.Review (rustTrim (joinNl comment))) else none
        match parse_diff_header line with
        | none => .error .invalidDiffHeader
        | some f => .ok (.FilePreamble f) rc
      else .error .expectedDiffHeader
    else
      match is_prr_directive line with
      | some d =>
        if d = "approve".toList then .ok (.Start comment) (some (.ReviewAction .Approve))
        else if d = "reject".toList then
          .ok (.Start comment) (some (.ReviewAction .RequestChanges))
        else if d = "comment".toList then
          .ok (.Start comment) (some (.ReviewAction .Comment))
        else .error .unknownDirective
      | none =>
        if comment ≠ [] ∨ rustTrim line ≠ [] then .ok (.Start (comment ++ [line])) none
        else .ok (.Start comment) none
  | .FilePreamble file =>
    if is_quoted then
      match parse_hunk_start line with
      | .panicked => .panicked
      | .nomatch => .ok (.FilePreamble file) none
      | .found l r =>
        .ok (.FileDiff
          { file := file, left_line := l - 1, right_line := r - 1,
            line := if is_left_line line then .Left (l - 1) else .Right (r - 1),
            span_start_line := none }) none
    else .error .commentInPreamble
  | .FileDiff fds =>
    if is_quoted then
      if is_diff_header line then
        if fds.span_start_line.isSome then .error .unterminatedSpan
        else
          match parse_diff_header line with
          | none => .error .invalidDiffHeader
          | some f => .ok (.FilePreamble f) none
      else
        match parse_hunk_start line with
        | .panicked => .panicked
        | .found l r =>
          if fds.span_start_line.isSome then .error .crossChunkSpan
          else
            .ok (.FileDiff
              { file := fds.file, left_line := l - 1, right_line := r - 1,
                line := if is_left_line line then .Left (l - 1) else .Right (r - 1),
                span_start_line := fds.span_start_line }) none
        | .nomatch =>
          let next := get_next_lines line fds.left_line fds.right_line
          .ok (.FileDiff
            { file := fds.file, left_line := next.1, right_line := next.2,
              line := if is_left_line line then .Left next.1 else .Right next.2,
              span_start_line := fds.span_start_line }) none
    else
      if rustTrim line = [] then .ok (.SpanStartOrComment fds) none
      else .ok (.Comment fds [line]) none
  | .SpanStartOrComment fds =>
    if is_quoted then
      if fds.span_start_line.isSome then .error .unterminatedSpan
      else
        let next := get_next_lines line fds.left_line fds.right_line
        let loc := if is_left_line line then LineLocation.Left next.1 else .Right next.2
        .ok (.FileDiff
          { file := fds.file, left_line := next.1, right_line := next.2,
            line := loc, span_start_line := some loc }) none
    else
      if rustTrim line = [] then .ok (.SpanStartOrComment fds) none
      else .ok (.Comment fds [line]) none
  | .Comment fds cs =>
    if is_quoted then
      let c : Comment :=
        .Inline
          { file := fds.file, line := fds.line, start_line := fds.span_start_line,
            comment := trimEndL (joinNl cs) }
      if is_diff_header line then
        match parse_diff_header line with
        | none => .error .invalidDiffHeader
        | some f => .ok (.FilePreamble f) (some c)
      else
        let next := get_next_lines line fds.left_line fds.right_line
        .ok (.FileDiff
          { file := fds.file, left_line := next.1, right_line := next.2,
            line := if is_left_line line then .Left next.1 else .Right next.2,
            span_start_line := none }) (some c)
    else .ok (.Comment fds (cs ++ [line])) none

/-- ReviewParser::finish from parser.rs. -/
def finish (st : State) : Option Comment :=
  match st with
  | .Comment fds cs =>
    some (.Inline
      { file := fds.file, line := fds.line, start_line := fds.span_start_line,
        comment := trimEndL (joinNl cs) })
  | _ => none

/-- Outcome of feeding a whole list of lines to the parser. -/
inductive StepsOut
  | ok (st : State) (emitted : List Comment)
  | error (e : ParseErr)
  | panicked
deriving DecidableEq, Repr

/-- Feed a list of lines to the parser from a given state, collecting every
emitted comment, stopping at the first fatal error or panic. -/
def runParse (st : State) : List Line → StepsOut
  | [] => .ok st []
  | l :: ls =>
    match parse_line st l with
    | .ok st' c =>
      match runParse st' ls with
      | .ok stf cs => .ok stf (c.toList ++ cs)
      | .error e => .error e
      | .panicked => .panicked
    | .error e => .error e
    | .panicked => .panicked

/-- Feed every line to a fresh parser then call finish, as the unit tests of
parser.rs do: the full list of emitted comments, or none on a parse failure. -/
def runAll (ls : List Line) : Option (List Comment) :=
  match runParse (.Start []) ls with
  | .ok st cs => some (cs ++ (finish st).toList)
  | _ => none

/-- Comments emitted before the first failure (if any), used to count
review-level emissions. -/
def runCollect (st : State) : List Line → List Comment
  | [] => []
  | l :: ls =>
    match parse_line st l with
    | .ok st' c => c.toList ++ runCollect st' ls
    | _ => []

-- ---------------------------------------------------------------------------
-- review.rs : data model and helper functions
-- ---------------------------------------------------------------------------

/-- SNIP_VARIANTS from review.rs. -/
def SNIP_VARIANTS : List Line := ["[..]".toList, "[...]".toList]

/-- LineType from review.rs. -/
inductive LineType
  | Quoted (text : Line)
  | Snip
  | Comment (text : Line)
deriving DecidableEq, Repr

/-- The From conversion on LineType from review.rs: classify one line of a
review file. -/
def lineTypeFrom : Line → LineType
  | '>' :: ' ' :: text => .Quoted text
  | line => if SNIP_VARIANTS.contains (rustTrim line) then .Snip else .Comment line

/-- ReviewMetadata from review.rs. -/
structure ReviewMetadata where
  original : List Char
  submitted : Option Nat
  commit_id : Option Line
deriving DecidableEq, Repr

/-- prefix_lines from review.rs.  Note that an empty input line contributes the
bare marker without a trailing newline. -/
def prefix_lines (s : List Char) (pre : Line) : List Char :=
  (rust_lines s).foldl
    (fun ret line =>
      if line = [] then ret ++ pre else ret ++ pre ++ [' '] ++ line ++ ['\n'])
    []

/-- The pair of on-disk artifacts Review::new writes: the quoted review file
contents and the metadata sidecar record. -/
def create_files (diff : List Char) (commit_id : Line) : List Char × ReviewMetadata :=
  (prefix_lines diff ['>'],
   { original := diff, submitted := none, commit_id := some commit_id })

/-- Outcome of validate_review_file. -/
inductive ValResult
  | ok
  | corrupt (lineno : Nat) (found expected : Line)
  | corruptGeneric
deriving DecidableEq, Repr

/-- The quoted-line reconstruction step of validate_review_file for one line. -/
def reconstruct_part (line : Line) : List Char :=
  (match dropAfter "> ".toList line with
   | some stripped => trimEndL stripped ++ ['\n']
   | none => []) ++
  (if line = ['>'] then ['\n'] else [])

/-- First index and pair of differing lines when zipping two line lists
(the zip loop of validate_review_file). -/
def firstMismatch : Nat → List Line → List Line → Option (Nat × Line × Line)
  | _, [], _ => none
  | _, _, [] => none
  | i, a :: as, b :: bs => if a = b then firstMismatch (i + 1) as bs else some (i, a, b)

/-- validate_review_file from review.rs, with the metadata original passed in
directly (the source reads it from the sidecar). -/
def validate_review_file (original contents : List Char) : ValResult :=
  let reconstructed := ((rust_lines contents).map reconstruct_part).foldl (· ++ ·) []
  let original2 :=
    ((rust_lines original).map (fun line => trimEndL line ++ ['\n'])).foldl (· ++ ·) []
  if reconstructed = original2 then .ok
  else
    match firstMismatch 0 (rust_lines reconstructed) (rust_lines original2) with
    | some (idx, l, r) =>
      let user_lines :=
        (((rust_lines contents).take idx).filter (fun u => ¬ line_is_quoted u)).length
      .corrupt (idx + 1 + user_lines) l r
    | none => .corruptGeneric

/-- The quoting applied by resolve_snips_recurse when re-emitting original
text (the format with a quote marker and space). -/
def quoteL (l : Line) : Line := '>' :: ' ' :: l

mutual

/-- resolve_snips_recurse from review.rs: glob-style alignment of a classified
pattern against the original diff lines.  A quoted pattern line must equal the
next original line; a comment line is re-emitted verbatim consuming nothing;
a snip tries consuming 0, 1, 2, ... original lines and takes the first
consumption length for which the remainder aligns. -/
def resolveSnips : List LineType → List Line → Option (List Line)
  | [], [] => some []
  | [], _ :: _ => none
  | .Comment l :: ps, ts => (resolveSnips ps ts).map (l :: ·)
  | .Quoted _ :: _, [] => none
  | .Quoted l :: ps, t :: ts =>
    if t = l then (resolveSnips ps ts).map (quoteL l :: ·) else none
  | .Snip :: ps, ts => snipTry ps ts
termination_by p t => 2 * p.length + t.length

/-- The candidate loop of the snip arm of resolve_snips_recurse: try letting
the snip consume 0 lines, then 1, and so on; consumed lines are re-emitted
quoted. -/
def snipTry (ps : List LineType) : List Line → Option (List Line)
  | [] =>
    (match resolveSnips ps [] with
     | some r => some r
     | none => none)
  | t :: ts' =>
    match resolveSnips ps (t :: ts') with
    | some r => some r
    | none => (snipTry ps ts').map (quoteL t :: ·)
termination_by t => 2 * ps.length + t.length + 1

end

-- ---------------------------------------------------------------------------
-- review.rs : the comments() aggregation loop
-- ---------------------------------------------------------------------------

/-- Outcome of the Review::comments aggregation. -/
inductive CommentsOut
  | ok (action : ReviewAction) (review : Line) (inline : List InlineComment)
  | errParse
  | errPanic
  | errDuplicateReview
  | errFinishReview
  | errFinishAction
deriving DecidableEq, Repr

/-- The parse-and-aggregate loop of Review::comments from review.rs, including
the duplicate review-comment bail and the finish handling. -/
def comments_loop (st : State) (action : ReviewAction) (review : Line)
    (inline : List InlineComment) : List Line → CommentsOut
  | [] =>
    match finish st with
    | some (.Inline c) => .ok action review (inline ++ [c])
    | some (.Review _) => .errFinishReview
    | some (.ReviewAction _) => .errFinishAction
    | none => .ok action review inline
  | l :: ls =>
    match parse_line st l with
    | .ok st' none => comments_loop st' action review inline ls
    | .ok st' (some (.Review c)) =>
      if review ≠ [] then .errDuplicateReview
      else comments_loop st' action c inline ls
    | .ok st' (some (.Inline c)) => comments_loop st' action review (inline ++ [c]) ls
    | .ok st' (some (.ReviewAction a)) => comments_loop st' a review inline ls
    | .error _ => .errParse
    | .panicked => .errPanic

-- ---------------------------------------------------------------------------
-- Auxiliary definitions used by the theorem statements
-- ---------------------------------------------------------------------------

/-- The quoting convention for one line of the diff: nonempty lines get the
marker plus a space, a blank line becomes the bare marker. -/
def quoteLine (l : Line) : Line := if l = [] then ['>'] else '>' :: ' ' :: l

/-- A diff line the parser can digest when it arrives quoted: a line that
looks like a diff header must actually parse, and a line matching the hunk
regex must not be of the shape that panics parse_hunk_start. -/
def goodDiffLine (l : Line) : Prop :=
  (is_diff_header l = true → parse_diff_header l ≠ none) ∧
  parse_hunk_start l ≠ .panicked

/-- A well-formed unified diff, given as its list of lines: it opens with a
parsable diff header and every line is digestible. -/
def ValidDiff (D : List Line) : Prop :=
  match D with
  | [] => False
  | d0 :: _ => is_diff_header d0 = true ∧ parse_diff_header d0 ≠ none ∧ ∀ l ∈ D, goodDiffLine l

/-- Invariant maintained while parsing a fully quoted valid diff: the parser
sits in the file preamble or inside a file diff with no open span. -/
def QuietInv (st : State) : Prop :=
  (∃ f, st = .FilePreamble f) ∨ (∃ fds, st = .FileDiff fds ∧ fds.span_start_line = none)

/-- Whether a state is the Start state. -/
def isStartState : State → Bool
  | .Start _ => true
  | _ => false

/-- Number of review-level comments in a list of emitted comments. -/
def countReview (cs : List Comment) : Nat :=
  cs.countP (fun c => match c with | .Review _ => true | _ => false)

-- ---------------------------------------------------------------------------
-- Helper lemmas
-- ---------------------------------------------------------------------------

lemma stripQuote_not_quoted (raw : Line) (h : line_is_quoted raw = false) :
    stripQuote raw = raw := by
  rw [stripQuote.eq_def]
  split
  · simp [line_is_quoted] at h
  · simp [line_is_quoted] at h
  · rfl

lemma line_is_quoted_quoteLine (l : Line) : line_is_quoted (quoteLine l) = true := by
  unfold quoteLine
  split <;> rfl

lemma stripQuote_quoteLine (l : Line) : stripQuote (quoteLine l) = l := by
  unfold quoteLine
  split
  · simp_all [stripQuote]
  · rfl

-- ---------------------------------------------------------------------------
-- C2: hunk headers with an omitted right start
-- ---------------------------------------------------------------------------

/-- C2, counterexample: a quoted hunk header with an omitted right start and a
nonzero left start does not make parse_line return a fatal parse error value;
parse_hunk_start reaches the unreachable macro, i.e. the process panics. -/
theorem c2_counterexample :
    parse_hunk_start "@@ -5,3 +2 @@".toList = .panicked ∧
    parse_line
        (.FileDiff
          { file := "foo.rs".toList, left_line := 4, right_line := 4,
            line := .Right 4, span_start_line := none })
        "> @@ -5,3 +2 @@".toList = .panicked := by decide

-- ---------------------------------------------------------------------------
-- C3: reported line number of the first corrupted quoted line
-- ---------------------------------------------------------------------------

/-- C3: on the review file with user lines quoted a1, comment c1, quoted a2
against the stored original a1, b, validate reports the mismatch at line 2,
although the mismatching quoted line is the third line of the user file
(2 quoted lines plus 1 comment line before the mismatch); a pure length
mismatch is reported generically. -/
theorem c3_line_number_eval :
    validate_review_file "a1\nb\n".toList "> a1\nc1\n> a2\n".toList
        = .corrupt 2 "a2".toList "b".toList ∧
    validate_review_file "a1\nb\n".toList "> a1\n".toList = .corruptGeneric := by decide

-- ---------------------------------------------------------------------------
-- C4: classification of a lone quote marker in snip resolution
-- ---------------------------------------------------------------------------

/-- C4, counterexample: in the line classification used by snip resolution a
lone quote marker is classified as a user comment, not as a quoted blank
line. -/
theorem c4_counterexample :
    lineTypeFrom ['>'] = LineType.Comment ['>'] ∧
    lineTypeFrom ['>'] ≠ LineType.Quoted [] := by decide

/-- C4, amended: the classification used by snip resolution treats a lone
quote marker as a user comment (only marker-plus-space lines are Quoted), and
snip resolution re-emits such a line verbatim, consuming no line of the
stored original. -/
theorem c4_amended :
    lineTypeFrom ['>'] = LineType.Comment ['>'] ∧
    (∀ l, lineTypeFrom ('>' :: ' ' :: l) = LineType.Quoted l) ∧
    (∀ ps ts, resolveSnips (LineType.Comment ['>'] :: ps) ts =
      (resolveSnips ps ts).map (['>'] :: ·)) := by
  refine ⟨by decide, fun l => rfl, fun ps ts => ?_⟩
  rw [resolveSnips]

-- ---------------------------------------------------------------------------
-- C9: finish emits exactly from the Comment state
-- ---------------------------------------------------------------------------

/-- C9: finish returns a comment exactly when the parser is in the Comment
state, in which case it returns the inline comment built from the buffered
lines and the captured file-diff state; for every other state, in particular
FileDiff or SpanStartOrComment with an open span, it returns none. -/
theorem c9_finish_only_comment_state :
    (∀ fds cs, finish (State.Comment fds cs) =
      some (Comment.Inline
        { file := fds.file, line := fds.line, start_line := fds.span_start_line,
          comment := trimEndL (joinNl cs) })) ∧
    (∀ st, (finish st).isSome = true ↔ ∃ fds cs, st = State.Comment fds cs) ∧
    (∀ fds, finish (State.FileDiff fds) = none) ∧
    (∀ fds, finish (State.SpanStartOrComment fds) = none) := by
  refine ⟨fun fds cs => rfl, fun st => ?_, fun fds => rfl, fun fds => rfl⟩
  cases st <;> simp [finish]

-- ---------------------------------------------------------------------------
-- C7: position tracking inside a hunk, and Scenario A
-- ---------------------------------------------------------------------------

/-- C7: a deletion line increments only the left counter, an addition line
only the right counter, any other content line both; a quoted content line in
FileDiff updates the location to Left of the new left counter for a deletion
line and Right of the new right counter otherwise; a hunk header resets both
counters to declared start minus one, saturating at zero; and Scenario A
produces the expected single inline comment at finish. -/
theorem c7_position_tracking :
    (∀ l a b, is_left_line l = true → get_next_lines l a b = (a + 1, b)) ∧
    (∀ l a b, is_left_line l = false → is_plus_line l = true →
      get_next_lines l a b = (a, b + 1)) ∧
    (∀ l a b, is_left_line l = false → is_plus_line l = false →
      get_next_lines l a b = (a + 1, b + 1)) ∧
    (∀ fds l, is_diff_header l = false → parse_hunk_start l = .nomatch →
      parse_line (.FileDiff fds) ('>' :: ' ' :: l) =
        .ok (.FileDiff
          { file := fds.file,
            left_line := (get_next_lines l fds.left_line fds.right_line).1,
            right_line := (get_next_lines l fds.left_line fds.right_line).2,
            line := if is_left_line l
              then .Left (get_next_lines l fds.left_line fds.right_line).1
              else .Right (get_next_lines l fds.left_line fds.right_line).2,
            span_start_line := fds.span_start_line }) none) ∧
    (∀ fds l a b, fds.span_start_line = none → is_diff_header l = false →
      parse_hunk_start l = .found a b →
      parse_line (.FileDiff fds) ('>' :: ' ' :: l) =
        .ok (.FileDiff
          { file := fds.file, left_line := a - 1, right_line := b - 1,
            line := if is_left_line l then .Left (a - 1) else .Right (b - 1),
            span_start_line := fds.span_start_line }) none) ∧
    runAll (["> diff --git a/foo.rs b/foo.rs", "> @@ -0,0 +1,2 @@",
             "> +fn main() {}", "> +\x7d", "Nice!"].map String.toList) =
      some [Comment.Inline
        { file := "foo.rs".toList, line := .Right 2,
          start_line := none, comment := "Nice!".toList }] := by
  refine ⟨?_, ?_, ?_, ?_, ?_, by decide⟩
  · intro l a b h; simp [get_next_lines, h]
  · intro l a b h h2; simp [get_next_lines, h, h2]
  · intro l a b h h2; simp [get_next_lines, h, h2]
  · intro fds l h1 h2
    simp [parse_line, line_is_quoted, stripQuote, h1, h2]
  · intro fds l a b hs h1 h2
    simp [parse_line, line_is_quoted, stripQuote, h1, h2, hs]

/-- Witness for C7 at concrete inputs. -/
theorem c7_witness :
    get_next_lines "-x".toList 3 7 = (3 + 1, 7) ∧
    get_next_lines "+x".toList 3 7 = (3, 7 + 1) ∧
    get_next_lines "~x".toList 3 7 = (3 + 1, 7 + 1) ∧
    parse_line
        (.FileDiff
          { file := "f".toList, left_line := 0, right_line := 1,
            line := .Right 1, span_start_line := none })
        ('>' :: ' ' :: "+\x7d".toList) =
      .ok (.FileDiff
        { file := "f".toList, left_line := 0, right_line := 2,
          line := .Right 2, span_start_line := none }) none ∧
    parse_line
        (.FileDiff
          { file := "f".toList, left_line := 5, right_line := 6,
            line := .Right 6, span_start_line := none })
        ('>' :: ' ' :: "@@ -731,7 +731,7 @@".toList) =
      .ok (.FileDiff
        { file := "f".toList, left_line := 730, right_line := 730,
          line := .Right 730, span_start_line := none }) none :=
  ⟨c7_position_tracking.1 _ 3 7 (by decide),
   c7_position_tracking.2.1 _ 3 7 (by decide) (by decide),
   c7_position_tracking.2.2.1 _ 3 7 (by decide) (by decide),
   c7_position_tracking.2.2.2.1 _ _ (by decide) (by decide),
   c7_position_tracking.2.2.2.2.1 _ _ 731 731 rfl (by decide) (by decide)⟩

-- ---------------------------------------------------------------------------
-- C8: errors while a span is open
-- ---------------------------------------------------------------------------

/-- C8: with an open span, a quoted line in SpanStartOrComment (a second
blank-then-content span start), a new hunk header, and a new diff header are
all fatal parse errors; a blank unquoted line in FileDiff keeps the open span
and moves to SpanStartOrComment. -/
theorem c8_open_span_errors :
    (∀ fds raw, line_is_quoted raw = false → rustTrim raw = [] →
      parse_line (.FileDiff fds) raw = .ok (.SpanStartOrComment fds) none) ∧
    (∀ fds loc raw, fds.span_start_line = some loc → line_is_quoted raw = true →
      is_diff_header (stripQuote raw) = true →
      parse_line (.FileDiff fds) raw = .error .unterminatedSpan) ∧
    (∀ fds loc raw a b, fds.span_start_line = some loc → line_is_quoted raw = true →
      is_diff_header (stripQuote raw) = false →
      parse_hunk_start (stripQuote raw) = .found a b →
      parse_line (.FileDiff fds) raw = .error .crossChunkSpan) ∧
    (∀ fds loc raw, fds.span_start_line = some loc → line_is_quoted raw = true →
      parse_line (.SpanStartOrComment fds) raw = .error .unterminatedSpan) := by
  refine ⟨?_, ?_, ?_, ?_⟩
  · intro fds raw hq ht
    simp [parse_line, hq, stripQuote_not_quoted raw hq, ht]
  · intro fds loc raw hs hq hd
    simp [parse_line, hq, hd, hs]
  · intro fds loc raw a b hs hq hd hh
    simp [parse_line, hq, hd, hh, hs]
  · intro fds loc raw hs hq
    simp [parse_line, hq, hs]

/-- Witness for C8 at concrete inputs. -/
theorem c8_witness :
    parse_line
        (.FileDiff
          { file := "f".toList, left_line := 1, right_line := 1,
            line := .Right 1, span_start_line := some (.Right 1) })
        " ".toList =
      .ok (.SpanStartOrComment
        { file := "f".toList, left_line := 1, right_line := 1,
          line := .Right 1, span_start_line := some (.Right 1) }) none ∧
    parse_line
        (.FileDiff
          { file := "f".toList, left_line := 1, right_line := 1,
            line := .Right 1, span_start_line := some (.Right 1) })
        "> diff --git a/a b/a".toList = .error .unterminatedSpan ∧
    parse_line
        (.FileDiff
          { file := "f".toList, left_line := 1, right_line := 1,
            line := .Right 1, span_start_line := some (.Right 1) })
        "> @@ -1,2 +3,4 @@".toList = .error .crossChunkSpan ∧
    parse_line
        (.SpanStartOrComment
          { file := "f".toList, left_line := 1, right_line := 1,
            line := .Right 1, span_start_line := some (.Right 1) })
        "> x".toList = .error .unterminatedSpan :=
  ⟨c8_open_span_errors.1 _ _ (by decide) (by decide),
   c8_open_span_errors.2.1 _ (.Right 1) _ rfl (by decide) (by decide),
   c8_open_span_errors.2.2.1 _ (.Right 1) _ 1 3 rfl (by decide) (by decide) (by decide),
   c8_open_span_errors.2.2.2 _ (.Right 1) _ rfl (by decide)⟩

-- ---------------------------------------------------------------------------
-- C6: a single snip of any position and length resolves back exactly
-- ---------------------------------------------------------------------------

lemma resolveSnips_quoted_all (A : List Line) : ∀ B : List Line,
    resolveSnips (A.map .Quoted) B = if A = B then some (B.map quoteL) else none := by
  induction A with
  | nil =>
    intro B
    cases B with
    | nil => simp [resolveSnips]
    | cons b bs => simp [resolveSnips]
  | cons a as ih =>
    intro B
    cases B with
    | nil => rw [List.map_cons, resolveSnips]; simp
    | cons b bs =>
      rw [List.map_cons, resolveSnips]
      by_cases hab : b = a
      · subst hab
        rw [if_pos rfl, ih bs]
        by_cases he : as = bs
        · subst he; simp
        · simp [he]
      · rw [if_neg hab, if_neg (by simp [Ne.symm hab])]

lemma snipTry_drop (k : Nat) : ∀ L : List Line, k ≤ L.length →
    snipTry ((L.drop k).map .Quoted) L = some (L.map quoteL) := by
  induction k with
  | zero =>
    intro L _
    cases L with
    | nil => simp [snipTry, resolveSnips]
    | cons t ts =>
      rw [List.drop_zero, snipTry, resolveSnips_quoted_all]
      simp
  | succ k ih =>
    intro L hk
    cases L with
    | nil => simp at hk
    | cons t ts =>
      rw [List.drop_succ_cons, snipTry, resolveSnips_quoted_all]
      have hne : ts.drop k ≠ t :: ts := by
        intro he
        have := congrArg List.length he
        simp at this
        omega
      rw [if_neg hne, ih ts (by simpa using hk)]
      simp

lemma resolveSnips_single_snip (p : Nat) : ∀ (L : List Line) (k : Nat), p + k ≤ L.length →
    resolveSnips ((L.take p).map .Quoted ++ .Snip :: (L.drop (p + k)).map .Quoted) L =
      some (L.map quoteL) := by
  induction p with
  | zero =>
    intro L k h
    simp only [List.take_zero, List.map_nil, List.nil_append, Nat.zero_add]
    rw [resolveSnips]
    exact snipTry_drop k L (by omega)
  | succ p ih =>
    intro L k h
    cases L with
    | nil => simp at h
    | cons x L2 =>
      simp only [List.take_succ_cons, List.map_cons, List.cons_append]
      rw [resolveSnips, if_pos rfl]
      have hidx : p + 1 + k = (p + k) + 1 := by omega
      rw [hidx, List.drop_succ_cons, ih L2 k (by simp at h; omega)]
      simp [quoteL]

/-- C6: for any original line list, replacing the k quoted lines starting at
position p (with p plus k within bounds) by a single elision marker resolves
back to exactly the fully quoted original, the elided lines re-emitted
quoted. -/
theorem c6_single_snip_roundtrip (L : List Line) (p k : Nat) (h : p + k ≤ L.length) :
    resolveSnips
        ((L.take p).map (fun l => lineTypeFrom ('>' :: ' ' :: l)) ++
          lineTypeFrom "[...]".toList ::
            (L.drop (p + k)).map (fun l => lineTypeFrom ('>' :: ' ' :: l))) L =
      some (L.map (fun l => '>' :: ' ' :: l)) :=
  resolveSnips_single_snip p L k h

/-- Witness for C6 on the Scenario D original lines with p = 1, k = 2. -/
theorem c6_witness :
    1 + 2 ≤ (["L1", "L2", "L3", "L4"].map String.toList).length ∧
    resolveSnips
        (((["L1", "L2", "L3", "L4"].map String.toList).take 1).map
            (fun l => lineTypeFrom ('>' :: ' ' :: l)) ++
          lineTypeFrom "[...]".toList ::
            (((["L1", "L2", "L3", "L4"].map String.toList).drop (1 + 2)).map
              (fun l => lineTypeFrom ('>' :: ' ' :: l))))
        (["L1", "L2", "L3", "L4"].map String.toList) =
      some ((["L1", "L2", "L3", "L4"].map String.toList).map (fun l => '>' :: ' ' :: l)) :=
  ⟨by decide, c6_single_snip_roundtrip _ 1 2 (by decide)⟩

-- ---------------------------------------------------------------------------
-- C5: parsing the fully quoted form of a valid diff emits nothing
-- ---------------------------------------------------------------------------

lemma quiet_step (st : State) (l : Line) (hst : QuietInv st) (hl : goodDiffLine l) :
    ∃ st', parse_line st (quoteLine l) = .ok st' none ∧ QuietInv st' := by
  have hq := line_is_quoted_quoteLine l
  have hsq := stripQuote_quoteLine l
  obtain ⟨hdh, hhs⟩ := hl
  rcases hst with ⟨f, rfl⟩ | ⟨fds, rfl, hspan⟩
  · rcases hh : parse_hunk_start l with _ | ⟨a, b⟩ | _
    · exact ⟨.FilePreamble f, by simp [parse_line, hq, hsq, hh], Or.inl ⟨f, rfl⟩⟩
    · refine ⟨.FileDiff
        { file := f, left_line := a - 1, right_line := b - 1,
          line := if is_left_line l then .Left (a - 1) else .Right (b - 1),
          span_start_line := none }, by simp [parse_line, hq, hsq, hh], Or.inr ⟨_, rfl, rfl⟩⟩
    · exact absurd hh hhs
  · cases hd : is_diff_header l with
    | true =>
      obtain ⟨f2, hf2⟩ : ∃ f2, parse_diff_header l = some f2 := by
        rcases hpd : parse_diff_header l with _ | f2
        · exact absurd hpd (hdh hd)
        · exact ⟨f2, rfl⟩
      exact ⟨.FilePreamble f2, by simp [parse_line, hq, hsq, hd, hspan, hf2],
        Or.inl ⟨f2, rfl⟩⟩
    | false =>
      rcases hh : parse_hunk_start l with _ | ⟨a, b⟩ | _
      · refine ⟨.FileDiff
          { file := fds.file,
            left_line := (get_next_lines l fds.left_line fds.right_line).1,
            right_line := (get_next_lines l fds.left_line fds.right_line).2,
            line := if is_left_line l
              then .Left (get_next_lines l fds.left_line fds.right_line).1
              else .Right (get_next_lines l fds.left_line fds.right_line).2,
            span_start_line := fds.span_start_line },
          by simp [parse_line, hq, hsq, hd, hh], Or.inr ⟨_, rfl, hspan⟩⟩
      · refine ⟨.FileDiff
          { file := fds.file, left_line := a - 1, right_line := b - 1,
            line := if is_left_line l then .Left (a - 1) else .Right (b - 1),
            span_start_line := fds.span_start_line },
          by simp [parse_line, hq, hsq, hd, hh, hspan], Or.inr ⟨_, rfl, hspan⟩⟩
      · exact absurd hh hhs

lemma quiet_run (ls : List Line) : ∀ st, QuietInv st → (∀ l ∈ ls, goodDiffLine l) →
    ∃ stf, runParse st (ls.map quoteLine) = .ok stf [] ∧ QuietInv stf := by
  induction ls with
  | nil => exact fun st h _ => ⟨st, rfl, h⟩
  | cons l ls ih =>
    intro st h hall
    obtain ⟨st', hstep, h'⟩ := quiet_step st l h (hall l (by simp))
    obtain ⟨stf, hrun, hf⟩ := ih st' h' (fun x hx => hall x (by simp [hx]))
    exact ⟨stf, by simp [runParse, hstep, hrun], hf⟩

lemma quiet_finish (st : State) (h : QuietInv st) : finish st = none := by
  rcases h with ⟨f, rfl⟩ | ⟨fds, rfl, _⟩ <;> rfl

/-- C5: feeding the fully quoted form of a valid unified diff line by line to
a fresh parser emits no comment of any kind and the final finish returns
none. -/
theorem c5_fully_quoted_no_comments (D : List Line) (h : ValidDiff D) :
    runAll (D.map quoteLine) = some [] := by
  rcases D with _ | ⟨d0, rest⟩
  · exact absurd h (by simp [ValidDiff])
  · obtain ⟨hd0, hpd, hall⟩ := h
    obtain ⟨f, hf⟩ : ∃ f, parse_diff_header d0 = some f := by
      rcases hx : parse_diff_header d0 with _ | f
      · exact absurd hx hpd
      · exact ⟨f, rfl⟩
    have h1 : parse_line (.Start []) (quoteLine d0) = .ok (.FilePreamble f) none := by
      simp [parse_line, line_is_quoted_quoteLine, stripQuote_quoteLine, hd0, hf]
    obtain ⟨stf, hrun, hinv⟩ :=
      quiet_run rest (.FilePreamble f) (Or.inl ⟨f, rfl⟩) (fun l hl => hall l (by simp [hl]))
    simp [runAll, runParse, h1, hrun, quiet_finish stf hinv]

/-- Witness for C5 on the Scenario A diff. -/
theorem c5_witness :
    ValidDiff
      (["diff --git a/foo.rs b/foo.rs", "@@ -0,0 +1,2 @@", "+fn main() {}", "+\x7d"].map
        String.toList) ∧
    runAll
        ((["diff --git a/foo.rs b/foo.rs", "@@ -0,0 +1,2 @@", "+fn main() {}", "+\x7d"].map
            String.toList).map quoteLine) =
      some [] :=
  ⟨by unfold ValidDiff goodDiffLine; simp only [List.map_cons, List.map_nil]; decide,
   c5_fully_quoted_no_comments _
     (by unfold ValidDiff goodDiffLine; simp only [List.map_cons, List.map_nil]; decide)⟩

-- ---------------------------------------------------------------------------
-- C10: at most one review-level comment is ever emitted
-- ---------------------------------------------------------------------------

lemma ok_not_start_dest (st : State) (raw : Line) (st' : State) (c : Option Comment)
    (h : isStartState st = false) (hp : parse_line st raw = .ok st' c) :
    isStartState st' = false ∧ ∀ t, c ≠ some (.Review t) := by
  cases st with
  | Start cs => simp [isStartState] at h
  | FilePreamble f =>
    simp only [parse_line] at hp
    repeat' split at hp
    all_goals first
      | exact StepResult.noConfusion hp
      | (simp only [StepResult.ok.injEq] at hp
         obtain ⟨h1, h2⟩ := hp; subst h1; subst h2; simp [isStartState])
  | FileDiff fds =>
    simp only [parse_line] at hp
    repeat' split at hp
    all_goals first
      | exact StepResult.noConfusion hp
      | (simp only [StepResult.ok.injEq] at hp
         obtain ⟨h1, h2⟩ := hp; subst h1; subst h2; simp [isStartState])
  | SpanStartOrComment fds =>
    simp only [parse_line] at hp
    repeat' split at hp
    all_goals first
      | exact StepResult.noConfusion hp
      | (simp only [StepResult.ok.injEq] at hp
         obtain ⟨h1, h2⟩ := hp; subst h1; subst h2; simp [isStartState])
  | Comment fds cs =>
    simp only [parse_line] at hp
    repeat' split at hp
    all_goals first
      | exact StepResult.noConfusion hp
      | (simp only [StepResult.ok.injEq] at hp
         obtain ⟨h1, h2⟩ := hp; subst h1; subst h2; simp [isStartState])

lemma ok_from_start_dest (cs : List Line) (raw : Line) (st' : State) (c : Option Comment)
    (hp : parse_line (.Start cs) raw = .ok st' c) :
    (∀ t, c ≠ some (.Review t)) ∨ isStartState st' = false := by
  simp only [parse_line] at hp
  repeat' split at hp
  all_goals first
    | exact StepResult.noConfusion hp
    | (simp only [StepResult.ok.injEq] at hp
       obtain ⟨h1, h2⟩ := hp; subst h1; subst h2; simp [isStartState])

lemma ok_review_start (st : State) (raw : Line) (st' : State) (t : Line)
    (hp : parse_line st raw = .ok st' (some (.Review t))) : isStartState st = true := by
  cases hst : isStartState st
  · exact absurd rfl ((ok_not_start_dest st raw st' _ hst hp).2 t)
  · rfl

lemma ok_review_leaves (st : State) (raw : Line) (st' : State) (t : Line)
    (hp : parse_line st raw = .ok st' (some (.Review t))) : isStartState st' = false := by
  cases hst : isStartState st
  · exact (ok_not_start_dest st raw st' _ hst hp).1
  · cases st with
    | Start cs =>
      rcases ok_from_start_dest cs raw st' _ hp with hnoR | h'
      · exact absurd rfl (hnoR t)
      · exact h'
    | FilePreamble f => simp [isStartState] at hst
    | FileDiff fds => simp [isStartState] at hst
    | SpanStartOrComment fds => simp [isStartState] at hst
    | Comment fds cs => simp [isStartState] at hst

lemma ok_start_preserved (st : State) (raw : Line) (st' : State) (c : Option Comment)
    (hp : parse_line st raw = .ok st' c) (h' : isStartState st' = true) :
    isStartState st = true := by
  cases hst : isStartState st
  · have := (ok_not_start_dest st raw st' c hst hp).1
    rw [h'] at this
    exact absurd this (by simp)
  · rfl

lemma runCollect_not_start (ls : List Line) : ∀ st, isStartState st = false →
    countReview (runCollect st ls) = 0 := by
  induction ls with
  | nil => intro st _; rfl
  | cons l ls ih =>
    intro st h
    rcases hp : parse_line st l with ⟨st', c⟩ | e | _
    · obtain ⟨h1, h2⟩ := ok_not_start_dest st l st' c h hp
      have hc : countReview c.toList = 0 := by
        cases c with
        | none => rfl
        | some cc =>
          cases cc with
          | Review t => exact absurd rfl (h2 t)
          | Inline ic => rfl
          | ReviewAction a => rfl
      simp only [runCollect, hp]
      rw [show countReview (c.toList ++ runCollect st' ls) =
            countReview c.toList + countReview (runCollect st' ls) from
          List.countP_append _ _ _,
        hc, ih st' h1]
    · simp [runCollect, hp, countReview]
    · simp [runCollect, hp, countReview]

lemma runCollect_start (ls : List Line) : ∀ cs, countReview (runCollect (.Start cs) ls) ≤ 1 := by
  induction ls with
  | nil => intro cs; simp [runCollect, countReview]
  | cons l ls ih =>
    intro cs
    rcases hp : parse_line (.Start cs) l with ⟨st', c⟩ | e | _
    · have hs := ok_from_start_dest cs l st' c hp
      simp only [runCollect, hp]
      rw [show countReview (c.toList ++ runCollect st' ls) =
            countReview c.toList + countReview (runCollect st' ls) from
          List.countP_append _ _ _]
      rcases hs with hnoR | hnost
      · have hc : countReview c.toList = 0 := by
          cases c with
          | none => rfl
          | some cc =>
            cases cc with
            | Review t => exact absurd rfl (hnoR t)
            | Inline ic => rfl
            | ReviewAction a => rfl
        rw [hc]
        cases hst : isStartState st' with
        | false => rw [runCollect_not_start ls st' hst]; omega
        | true =>
          cases st' with
          | Start cs2 => simpa using ih cs2
          | FilePreamble f => simp [isStartState] at hst
          | FileDiff fds => simp [isStartState] at hst
          | SpanStartOrComment fds => simp [isStartState] at hst
          | Comment fds cs3 => simp [isStartState] at hst
      · rw [runCollect_not_start ls st' hnost]
        have hcle : countReview c.toList ≤ 1 := by
          cases c with
          | none => simp [countReview]
          | some cc => cases cc <;> simp [countReview]
        omega
    · simp [runCollect, hp, countReview]
    · simp [runCollect, hp, countReview]

lemma comments_loop_no_dup (ls : List Line) : ∀ st act rc ics,
    (isStartState st = true → rc = []) →
    comments_loop st act rc ics ls ≠ .errDuplicateReview := by
  induction ls with
  | nil =>
    intro st act rc ics _
    unfold comments_loop
    rcases hf : finish st with _ | cc
    · simp
    · cases cc <;> simp
  | cons l ls ih =>
    intro st act rc ics hinv
    unfold comments_loop
    rcases hp : parse_line st l with ⟨st', c⟩ | e | _
    · cases c with
      | none =>
        exact ih st' act rc ics
          (fun h' => hinv (ok_start_preserved st l st' none hp h'))
      | some cc =>
        cases cc with
        | Review t =>
          have hrc : rc = [] := hinv (ok_review_start st l st' t hp)
          have hleft : isStartState st' = false := ok_review_leaves st l st' t hp
          show (if rc ≠ [] then CommentsOut.errDuplicateReview
            else comments_loop st' act t ics ls) ≠ CommentsOut.errDuplicateReview
          rw [if_neg (by simp [hrc])]
          exact ih st' act t ics (fun h' => by rw [hleft] at h'; exact absurd h' (by simp))
        | Inline ic =>
          exact ih st' act rc (ics ++ [ic])
            (fun h' => hinv (ok_start_preserved st l st' _ hp h'))
        | ReviewAction a =>
          exact ih st' a rc ics
            (fun h' => hinv (ok_start_preserved st l st' _ hp h'))
    · simp
    · simp

/-- C10: a fresh parser emits at most one review-level comment over any input,
and the duplicate-review-comment error branch of the comments aggregation loop
is never taken. -/
theorem c10_at_most_one_review :
    (∀ ls, countReview (runCollect (.Start []) ls) ≤ 1) ∧
    (∀ ls, comments_loop (.Start []) .Comment [] [] ls ≠ .errDuplicateReview) :=
  ⟨fun ls => runCollect_start ls [],
   fun ls => comments_loop_no_dup ls _ _ _ _ (fun _ => rfl)⟩

-- ---------------------------------------------------------------------------
-- C2, amended: the right-start default and the panic shape
-- ---------------------------------------------------------------------------

lemma takeWhile_append_all (p : Char → Bool) (l l2 : List Char)
    (h : ∀ a ∈ l, p a = true) : (l ++ l2).takeWhile p = l ++ l2.takeWhile p := by
  induction l with
  | nil => simp
  | cons a as ih =>
    rw [List.cons_append, List.takeWhile_cons, if_pos (h a (by simp)),
      ih (fun x hx => h x (by simp [hx])), List.cons_append]

lemma dropWhile_append_all (p : Char → Bool) (l l2 : List Char)
    (h : ∀ a ∈ l, p a = true) : (l ++ l2).dropWhile p = l2.dropWhile p := by
  induction l with
  | nil => simp
  | cons a as ih =>
    rw [List.cons_append, List.dropWhile_cons, if_pos (h a (by simp))]
    exact ih (fun x hx => h x (by simp [hx]))

lemma dropWhile_eq_self_of_takeWhile_nil (p : Char → Bool) (r : List Char)
    (h : r.takeWhile p = []) : r.dropWhile p = r := by
  cases r with
  | nil => rfl
  | cons a as =>
    rw [List.takeWhile_cons] at h
    by_cases hpa : p a = true
    · simp [hpa] at h
    · simp [List.dropWhile_cons, hpa]

lemma isPrefixOf_of_append (p x : Line) : p.isPrefixOf (p ++ x) = true :=
  List.isPrefixOf_iff_prefix.mpr (List.prefix_append p x)

lemma dropAfter_append (p x : Line) : dropAfter p (p ++ x) = some x := by
  unfold dropAfter
  rw [if_pos (isPrefixOf_of_append p x), List.drop_left]

lemma readDigits_append (ds r : Line) (hne : ds ≠ []) (hd : ∀ c ∈ ds, c.isDigit = true)
    (hr : r.takeWhile Char.isDigit = []) :
    readDigits (ds ++ r) = some (digitsToNat ds, r) := by
  unfold readDigits
  rw [takeWhile_append_all Char.isDigit ds r hd, hr,
    dropWhile_append_all Char.isDigit ds r hd,
    dropWhile_eq_self_of_takeWhile_nil Char.isDigit r hr]
  rw [if_neg (by simp [hne])]
  simp

/-- C2, amended: when the hunk header omits the right start, the parse yields
right start 0 exactly when the left start is 0; when the left start is
nonzero the source panics (the unreachable macro), with the panic propagating
out of parse_line, rather than a fatal parse error value being returned. -/
theorem c2_amended :
    (∀ ds rs : Line, ds ≠ [] → (∀ c ∈ ds, c.isDigit = true) →
      rs ≠ [] → (∀ c ∈ rs, c.isDigit = true) →
      parse_hunk_start
          ("@@ -".toList ++ (ds ++ (',' :: '0' :: ' ' :: '+' :: (rs ++ " @@".toList)))) =
        (if digitsToNat ds = 0 then .found 0 0 else .panicked)) ∧
    (∀ fds raw, line_is_quoted raw = true → is_diff_header (stripQuote raw) = false →
      parse_hunk_start (stripQuote raw) = .panicked →
      parse_line (.FileDiff fds) raw = .panicked) := by
  constructor
  · intro ds rs hds hd hrs hr
    have h1 := dropAfter_append "@@ -".toList
      (ds ++ (',' :: '0' :: ' ' :: '+' :: (rs ++ " @@".toList)))
    have h2 : readDigits (ds ++ (',' :: '0' :: ' ' :: '+' :: (rs ++ " @@".toList))) =
        some (digitsToNat ds, ',' :: '0' :: ' ' :: '+' :: (rs ++ " @@".toList)) :=
      readDigits_append ds _ hds hd rfl
    have h3 : readDigits ('0' :: ' ' :: '+' :: (rs ++ " @@".toList)) =
        some (digitsToNat ['0'], ' ' :: '+' :: (rs ++ " @@".toList)) :=
      readDigits_append ['0'] _ (by decide) (by decide) rfl
    have h4 : readDigits (rs ++ " @@".toList) = some (digitsToNat rs, " @@".toList) :=
      readDigits_append rs _ hrs hr rfl
    unfold parse_hunk_start
    rw [h1]
    simp only [h2, h3, h4]
    rw [if_pos (show (" @@".toList.isPrefixOf " @@".toList) = true by rfl)]
    by_cases h0 : digitsToNat ds = 0 <;> simp [h0]
  · intro fds raw hq hd hh
    simp [parse_line, hq, hd, hh]

/-- Witness for C2 amended at concrete inputs. -/
theorem c2_witness :
    parse_hunk_start
        ("@@ -".toList ++ (['5'] ++ (',' :: '0' :: ' ' :: '+' :: (['3'] ++ " @@".toList)))) =
      .panicked ∧
    parse_line
        (.FileDiff
          { file := "g".toList, left_line := 2, right_line := 2,
            line := .Right 2, span_start_line := none })
        "> @@ -7,0 +3 @@".toList = .panicked := by
  constructor
  · have h := c2_amended.1 ['5'] ['3'] (by decide) (by decide) (by decide) (by decide)
    rw [h, if_neg (by decide)]
  · exact c2_amended.2 _ _ (by decide) (by decide) (by decide)

-- ---------------------------------------------------------------------------
-- C1: review-file creation and the create-validate round trip
-- ---------------------------------------------------------------------------

lemma foldl_append_flatten (ms : List (List Char)) : ∀ a, ms.foldl (· ++ ·) a = a ++ ms.flatten := by
  induction ms with
  | nil => intro a; simp
  | cons m ms ih => intro a; simp [ih, List.append_assoc]

lemma foldl_emit (g : Line → List Char) (ls : List Line) : ∀ (a : List Char),
    ls.foldl (fun r x => r ++ g x) a = a ++ (ls.map g).flatten := by
  induction ls with
  | nil => intro a; simp
  | cons x ls ih =>
    intro a
    rw [List.foldl_cons, List.map_cons, List.flatten_cons, ih, List.append_assoc]

lemma prefix_lines_eq (s : List Char) (pre : Line) :
    prefix_lines s pre =
      ((rust_lines s).map
        (fun l => if l = [] then pre else pre ++ [' '] ++ l ++ ['\n'])).flatten := by
  unfold prefix_lines
  have hfun : (fun (ret : List Char) (line : Line) =>
      if line = [] then ret ++ pre else ret ++ pre ++ [' '] ++ line ++ ['\n']) =
      fun ret line => ret ++ (if line = [] then pre else pre ++ [' '] ++ line ++ ['\n']) := by
    funext ret line
    by_cases hl : line = [] <;> simp [hl, List.append_assoc]
  rw [hfun, foldl_emit]
  simp

lemma lines_go_cons (acc : Line) (c : Char) (rest : List Char) :
    lines_go acc (c :: rest) =
      if c = '\n' then rstripCr acc.reverse :: rust_lines rest
      else lines_go (c :: acc) rest := by
  cases rest with
  | nil => rw [lines_go.eq_2]; rfl
  | cons r rs => rw [lines_go.eq_3]; rfl

lemma lines_go_concat (p : Line) (hnp : '\n' ∉ p) : ∀ (acc : Line) (rest : List Char),
    lines_go acc (p ++ '\n' :: rest) = rstripCr (acc.reverse ++ p) :: rust_lines rest := by
  induction p with
  | nil =>
    intro acc rest
    rw [List.nil_append, lines_go_cons, if_pos rfl, List.append_nil]
  | cons c p ih =>
    intro acc rest
    have hc : c ≠ '\n' := fun hh => hnp (by simp [hh])
    have hnp2 : '\n' ∉ p := fun hh => hnp (by simp [hh])
    rw [List.cons_append, lines_go_cons, if_neg hc, ih hnp2 (c :: acc) rest]
    simp [List.append_assoc]

lemma rust_lines_flatten (pieces : List Line) (h : ∀ p ∈ pieces, '\n' ∉ p) :
    rust_lines ((pieces.map (fun p => p ++ ['\n'])).flatten) = pieces.map rstripCr := by
  induction pieces with
  | nil => simp [rust_lines]
  | cons p ps ih =>
    simp only [List.map_cons, List.flatten_cons]
    have hassoc : (p ++ ['\n']) ++ ((ps.map (fun p => p ++ ['\n'])).flatten) =
        p ++ '\n' :: ((ps.map (fun p => p ++ ['\n'])).flatten) := by simp
    rw [hassoc, rust_lines.eq_def]
    split
    · rename_i heq
      exact absurd heq (by simp)
    · rw [lines_go_concat p (h p (by simp)) [] _]
      simp only [List.reverse_nil, List.nil_append]
      rw [ih (fun q hq => h q (by simp [hq]))]

lemma rstripCr_append_single (xs : Line) (x : Char) :
    rstripCr (xs ++ [x]) = if x = '\r' then xs else xs ++ [x] := by
  unfold rstripCr
  rw [show (xs ++ [x]).reverse = x :: xs.reverse by simp]
  by_cases hx : x = '\r'
  · subst hx; simp
  · rw [if_neg hx]
    split
    · rename_i r heq
      injection heq with h1 h2
      exact absurd h1 hx
    · rfl

lemma rstripCr_quote (l : Line) : rstripCr ('>' :: ' ' :: l) = '>' :: ' ' :: rstripCr l := by
  induction l using List.reverseRecOn with
  | nil => rfl
  | append_singleton xs x _ =>
    rw [show ('>' :: ' ' :: (xs ++ [x]) : Line) = ('>' :: ' ' :: xs) ++ [x] by simp,
      rstripCr_append_single, rstripCr_append_single]
    by_cases hx : x = '\r' <;> simp [hx]

lemma trimEndL_rstripCr (l : Line) : trimEndL (rstripCr l) = trimEndL l := by
  induction l using List.reverseRecOn with
  | nil => rfl
  | append_singleton xs x _ =>
    rw [rstripCr_append_single]
    by_cases hx : x = '\r'
    · subst hx
      rw [if_pos rfl]
      unfold trimEndL
      rw [show ((xs ++ ['\r']).reverse) = '\r' :: xs.reverse by simp,
        List.dropWhile_cons, if_pos (by decide)]
    · rw [if_neg hx]

lemma mem_rstripCr (l : Line) (x : Char) (h : x ∈ rstripCr l) : x ∈ l := by
  induction l using List.reverseRecOn with
  | nil => simp [rstripCr] at h
  | append_singleton xs c _ =>
    rw [rstripCr_append_single] at h
    by_cases hc : c = '\r'
    · rw [if_pos hc] at h
      exact List.mem_append_left _ h
    · rwa [if_neg hc] at h

lemma lines_go_no_nl (s : List Char) : ∀ (acc : Line), (∀ c ∈ acc, c ≠ '\n') →
    ∀ l ∈ lines_go acc s, '\n' ∉ l := by
  induction s with
  | nil =>
    intro acc hacc l hl
    rw [lines_go.eq_1, List.mem_singleton] at hl
    subst hl
    intro hmem
    exact hacc '\n' (by simpa using hmem) rfl
  | cons c rest ih =>
    intro acc hacc l hl
    rw [lines_go_cons] at hl
    by_cases hc : c = '\n'
    · rw [if_pos hc] at hl
      rcases List.mem_cons.mp hl with rfl | hl2
      · intro hmem
        exact hacc '\n' (by simpa using mem_rstripCr _ _ hmem) rfl
      · unfold rust_lines at hl2
        cases rest with
        | nil => simp at hl2
        | cons r rs => exact ih [] (by simp) l hl2
    · rw [if_neg hc] at hl
      refine ih (c :: acc) ?_ l hl
      intro y hy
      rcases List.mem_cons.mp hy with rfl | hy2
      · exact hc
      · exact hacc y hy2

lemma rust_lines_no_nl (s : List Char) (l : Line) (hl : l ∈ rust_lines s) : '\n' ∉ l := by
  unfold rust_lines at hl
  cases s with
  | nil => simp at hl
  | cons c rest => exact lines_go_no_nl (c :: rest) [] (by simp) l hl

lemma reconstruct_part_quoted (x : Line) :
    reconstruct_part ('>' :: ' ' :: x) = trimEndL x ++ ['\n'] := by
  unfold reconstruct_part dropAfter
  rw [if_pos (show ("> ".toList.isPrefixOf ('>' :: ' ' :: x)) = true from
    isPrefixOf_of_append "> ".toList x)]
  rw [if_neg (show ¬ (('>' :: ' ' :: x : Line) = ['>']) by simp)]
  simp

/-- C1, counterexample: for the diff with a blank first line followed by a
nonempty line, creation merges the bare quote marker with the following line,
and validating the freshly created review file fails. -/
theorem c1_counterexample :
    prefix_lines "\nx".toList ['>'] = ">> x\n".toList ∧
    validate_review_file "\nx".toList (prefix_lines "\nx".toList ['>']) = .corruptGeneric := by
  decide

/-- C1, amended: creation writes every nonempty diff line quoted and
newline-terminated, while a blank diff line contributes a bare quote marker
with no newline of its own; the sidecar stores the untouched diff, no
submission time, and the commit id; and the create-validate round trip
succeeds for every diff whose lines are all nonempty. -/
theorem c1_amended (diff : List Char) (cid : Line)
    (h : ∀ l ∈ rust_lines diff, l ≠ []) :
    (create_files diff cid).1 =
      ((rust_lines diff).map (fun l => ('>' :: ' ' :: l) ++ ['\n'])).flatten ∧
    validate_review_file (create_files diff cid).2.original (create_files diff cid).1 = .ok ∧
    (create_files diff cid).2.submitted = none ∧
    (create_files diff cid).2.commit_id = some cid := by
  have hcontents : prefix_lines diff ['>'] =
      ((rust_lines diff).map (fun l => ('>' :: ' ' :: l) ++ ['\n'])).flatten := by
    rw [prefix_lines_eq]
    congr 1
    apply List.map_congr_left
    intro l hl
    rw [if_neg (h l hl)]
    simp
  refine ⟨hcontents, ?_, rfl, rfl⟩
  show validate_review_file diff (prefix_lines diff ['>']) = .ok
  have hrl : rust_lines (prefix_lines diff ['>']) =
      (rust_lines diff).map (fun l => '>' :: ' ' :: rstripCr l) := by
    rw [hcontents]
    rw [show ((rust_lines diff).map (fun l => ('>' :: ' ' :: l) ++ ['\n'])) =
        (((rust_lines diff).map (fun l => '>' :: ' ' :: l)).map (fun p => p ++ ['\n'])) by
      rw [List.map_map]; rfl]
    rw [rust_lines_flatten]
    · rw [List.map_map]
      apply List.map_congr_left
      intro l _
      exact rstripCr_quote l
    · intro p hp
      simp only [List.mem_map] at hp
      obtain ⟨l, hl, rfl⟩ := hp
      intro hmem
      rcases List.mem_cons.mp hmem with h1 | hmem2
      · exact absurd h1 (by decide)
      · rcases List.mem_cons.mp hmem2 with h1 | h1
        · exact absurd h1 (by decide)
        · exact rust_lines_no_nl diff l hl h1
  unfold validate_review_file
  have hrec : ((rust_lines (prefix_lines diff ['>'])).map reconstruct_part).foldl (· ++ ·) [] =
      ((rust_lines diff).map (fun l => trimEndL l ++ ['\n'])).flatten := by
    rw [hrl, List.map_map, foldl_append_flatten]
    simp only [List.nil_append]
    congr 1
    apply List.map_congr_left
    intro l _
    show reconstruct_part ('>' :: ' ' :: rstripCr l) = trimEndL l ++ ['\n']
    rw [reconstruct_part_quoted, trimEndL_rstripCr]
  have horig : ((rust_lines diff).map (fun line => trimEndL line ++ ['\n'])).foldl (· ++ ·) [] =
      ((rust_lines diff).map (fun l => trimEndL l ++ ['\n'])).flatten := by
    rw [foldl_append_flatten]
    simp
  rw [if_pos (hrec.trans horig.symm)]

/-- Witness for C1 amended on a concrete two-line diff. -/
theorem c1_witness :
    (∀ l ∈ rust_lines "a\nb\n".toList, l ≠ []) ∧
    validate_review_file (create_files "a\nb\n".toList "c0ffee".toList).2.original
      (create_files "a\nb\n".toList "c0ffee".toList).1 = .ok :=
  ⟨by decide, (c1_amended "a\nb\n".toList "c0ffee".toList (by decide)).2.1⟩

end Prr
